import Mathlib

/-!
Verification of the Notebook application (src/main.rs).

The Rust program is shallowly embedded:
* `Note` mirrors `struct Note`; `chrono::DateTime<Utc>` instants are modelled
  as natural numbers (an exact scalar timestamp; chrono serializes and parses
  an instant losslessly, so the textual RFC-3339 layer of the external
  chrono/serde libraries is abstracted to the instant's value).
* `serde_json` encoding of the derived `Serialize`/`Deserialize` instances is
  modelled on a JSON tree (`Json`): a note becomes an object with the five
  declared fields; the collection becomes an array.  The text layer of
  `serde_json` (printing/parsing the tree) is external library code and is
  abstracted away; the repository-determined structure is kept.
* `Utc::now()` is modelled by passing the current instant explicitly.
* The file `notes.json` is modelled as an `Option Json` component (`none` =
  the file does not exist); `fs::write` replaces it.
* A Rust panic (`expect`, out-of-bounds indexing) is modelled by `Option`:
  `none` is a panic/abort, `some s` is a normal result.
-/

/-- JSON trees, the model of `serde_json` values. -/
inductive Json : Type where
  | str : String → Json
  | num : Nat → Json
  | arr : List Json → Json
  | obj : List (String × Json) → Json
deriving Repr

/-- Mirror of `struct Note` (src/main.rs lines 6–13).  Timestamps are scalar
instants, see the module comment. -/
structure Note : Type where
  title : String
  content : String
  created_at : Nat
  updated_at : Nat
  tags : List String
deriving Repr, DecidableEq

/-- Model of `Note::new` (lines 16–25): both timestamps are set to `now`. -/
def Note.new (title content : String) (tags : List String) (now : Nat) : Note :=
  { title := title, content := content, created_at := now, updated_at := now,
    tags := tags }

/-- Model of `Note::update` (lines 27–30): replace the content, refresh `updated_at`. -/
def Note.update (n : Note) (new_content : String) (now : Nat) : Note :=
  { n with content := new_content, updated_at := now }

/-- Rust `str::split(',')` on the character list: splits at every comma;
the empty string yields one empty token, `"a,"` yields `["a", ""]`. -/
def splitCommaChars : List Char → List (List Char)
  | [] => [[]]
  | c :: cs =>
      if c = ',' then [] :: splitCommaChars cs
      else
        match splitCommaChars cs with
        | t :: ts => (c :: t) :: ts
        | [] => [[c]]

/-- Rust `str::trim` on the character list: drop leading and trailing
whitespace.  Rust trims the Unicode `White_Space` set, modelled here by
`Char.isWhitespace`, which agrees on all ASCII whitespace. -/
def trimChars (cs : List Char) : List Char :=
  ((cs.dropWhile Char.isWhitespace).reverse.dropWhile Char.isWhitespace).reverse

/-- Rust `str::split(',')` as a `String` operation. -/
def splitComma (s : String) : List String :=
  (splitCommaChars s.data).map String.mk

/-- Rust `str::trim` as a `String` operation. -/
def trimStr (s : String) : String :=
  String.mk (trimChars s.data)

/-- The tag-parsing pipeline used verbatim in `add_note` (lines 58–61) and in
the save-changes branch (lines 141–144): split on `,`, trim each token, drop
empty tokens. -/
def parseTags (s : String) : List String :=
  ((splitComma s).map trimStr).filter (fun t => t ≠ "")

/-- Derived `Serialize` for `Note`: an object with the five fields in
declaration order. -/
def encodeNote (n : Note) : Json :=
  .obj [("title", .str n.title), ("content", .str n.content),
        ("created_at", .num n.created_at), ("updated_at", .num n.updated_at),
        ("tags", .arr (n.tags.map .str))]

/-- Model of `serde_json::to_string(&self.notes)` at the tree level: a JSON array of
the encoded notes. -/
def encodeNotes (ns : List Note) : Json :=
  .arr (ns.map encodeNote)

/-- Field lookup in a JSON object (serde matches fields by name). -/
def lookupField (fs : List (String × Json)) (k : String) : Option Json :=
  match fs with
  | [] => none
  | (k', v) :: rest => if k' = k then some v else lookupField rest k

/-- Expect a JSON string. -/
def asStr : Json → Option String
  | .str s => some s
  | _ => none

/-- Expect a JSON number (the scalar timestamp model). -/
def asNum : Json → Option Nat
  | .num n => some n
  | _ => none

/-- Decode a list of JSON strings (the `tags` array). -/
def decodeStrings : List Json → Option (List String)
  | [] => some []
  | j :: js => do
      let s ← asStr j
      let ss ← decodeStrings js
      pure (s :: ss)

/-- Expect a JSON array of strings. -/
def asTags : Json → Option (List String)
  | .arr js => decodeStrings js
  | _ => none

/-- Derived `Deserialize` for `Note`: all five fields must be present with the
right types. -/
def decodeNote : Json → Option Note
  | .obj fs => do
      let title ← (lookupField fs "title").bind asStr
      let content ← (lookupField fs "content").bind asStr
      let created ← (lookupField fs "created_at").bind asNum
      let updated ← (lookupField fs "updated_at").bind asNum
      let tags ← (lookupField fs "tags").bind asTags
      pure { title := title, content := content, created_at := created,
             updated_at := updated, tags := tags }
  | _ => none

/-- Decode each element of a JSON array as a note. -/
def decodeNoteList : List Json → Option (List Note)
  | [] => some []
  | j :: js => do
      let n ← decodeNote j
      let ns ← decodeNoteList js
      pure (n :: ns)

/-- Model of `serde_json::from_str` for `Vec<Note>` at the tree level. -/
def decodeNotes : Json → Option (List Note)
  | .arr js => decodeNoteList js
  | _ => none

theorem decodeStrings_map (l : List String) :
    decodeStrings (l.map Json.str) = some l := by
  induction l with
  | nil => rfl
  | cons s ss ih => simp [decodeStrings, asStr, ih]

theorem decodeNote_encodeNote (n : Note) :
    decodeNote (encodeNote n) = some n := by
  cases n
  simp [decodeNote, encodeNote, lookupField, asStr, asNum, asTags,
        decodeStrings_map]

theorem decodeNotes_encodeNotes (ns : List Note) :
    decodeNotes (encodeNotes ns) = some ns := by
  have h : ∀ l : List Note, decodeNoteList (l.map encodeNote) = some l := by
    intro l
    induction l with
    | nil => rfl
    | cons n ns ih => simp [decodeNoteList, decodeNote_encodeNote, ih]
  simp [decodeNotes, encodeNotes, h]

/-- Mirror of `struct NotebookApp` (lines 33–39): the note collection and the
transient draft/edit-session fields. -/
structure NotebookApp : Type where
  notes : List Note
  new_title : String
  new_content : String
  new_tags : String
  edit_index : Option Nat
deriving Repr, DecidableEq

/-- The application together with the modelled `notes.json` file:
`none` means the file does not exist. -/
structure Sys : Type where
  app : NotebookApp
  file : Option Json
deriving Repr

/-- Model of `NotebookApp::load_notes` (lines 42–50): absent file gives an empty
collection; an unreadable/undecodable file is a fatal `expect` panic
(`none`). -/
def load_notes (file : Option Json) : Option (List Note) :=
  match file with
  | none => some []
  | some j => decodeNotes j

/-- Model of `NotebookApp::save_notes` (lines 52–55): serialize the whole collection
and overwrite the file. -/
def Sys.save_notes (s : Sys) : Sys :=
  { s with file := some (encodeNotes s.app.notes) }

/-- Model of `NotebookApp::add_note` (lines 57–69): parse the draft tags, append a new
note built from the drafts, clear the drafts, persist. -/
def Sys.add_note (s : Sys) (now : Nat) : Sys :=
  let tags := parseTags s.app.new_tags
  let new_note := Note.new s.app.new_title s.app.new_content tags now
  Sys.save_notes
    { s with app := { s.app with
        notes := s.app.notes ++ [new_note]
        new_title := ""
        new_content := ""
        new_tags := "" } }

/-- Model of `NotebookApp::delete_note_by_index` (lines 71–76): in bounds, remove the
note and persist; out of bounds, do nothing. -/
def Sys.delete_note_by_index (s : Sys) (index : Nat) : Sys :=
  if index < s.app.notes.length then
    Sys.save_notes
      { s with app := { s.app with notes := s.app.notes.eraseIdx index } }
  else s

/-- Apply `f` to the element at position `i`, the model of mutating through
`Vec::get_mut` or checked indexing. -/
def updateAt {α : Type} : List α → Nat → (α → α) → List α
  | [], _, _ => []
  | a :: as_, 0, f => f a :: as_
  | a :: as_, i + 1, f => a :: updateAt as_ i f

/-- Model of `NotebookApp::update_note_by_index` (lines 78–83): in bounds, apply the
content update to the note and persist; out of bounds, do nothing. -/
def Sys.update_note_by_index (s : Sys) (index : Nat) (new_content : String)
    (now : Nat) : Sys :=
  if index < s.app.notes.length then
    Sys.save_notes
      { s with app := { s.app with
          notes := updateAt s.app.notes index (fun n => n.update new_content now) } }
  else s

/-- One frame's batch delete (lines 116–118): the clicked indices are
collected in ascending enumeration order and processed with `.iter().rev()`,
i.e. in descending order. -/
def Sys.deleteBatch (s : Sys) (indices : List Nat) : Sys :=
  indices.reverse.foldl Sys.delete_note_by_index s

/-- The spec's cautionary alternative: processing the same batch in the
ascending order it was collected in, without the reversal. -/
def Sys.deleteBatchAscending (s : Sys) (indices : List Nat) : Sys :=
  indices.foldl Sys.delete_note_by_index s

/-- The user interactions of one frame of `eframe::App::update`
(lines 86–165) that reach the store. -/
inductive Event : Type where
  | setDrafts : String → String → String → Event
  | clickEdit : Nat → Event
  | clickDelete : List Nat → Event
  | clickSave : Event
  | clickAdd : Event

/-- One frame of `eframe::App::update`, given the instant `now`.
`none` models a panic:
* `setDrafts` is the user typing into the three text fields;
* `clickEdit i` (lines 103–108) copies note `i` into the drafts and sets
  `edit_index` (the button only exists for an index of a displayed note);
* `clickDelete` (lines 110–118) deletes the clicked indices in descending
  order;
* `clickSave` (lines 138–156) commits only when `edit_index` is set and the
  draft content is non-empty; the commit indexes `self.notes[edit_index]`
  UNCHECKED, so an out-of-bounds `edit_index` panics (`none`);
* `clickAdd` (lines 157–161) adds only when no edit is active and both draft
  title and content are non-empty. -/
def step (s : Sys) (e : Event) (now : Nat) : Option Sys :=
  match e with
  | .setDrafts t c g =>
      some { s with app := { s.app with
        new_title := t
        new_content := c
        new_tags := g } }
  | .clickEdit i =>
      match s.app.notes[i]? with
      | some n =>
          some { s with app := { s.app with
            new_title := n.title
            new_content := n.content
            new_tags := String.intercalate ", " n.tags
            edit_index := some i } }
      | none => some s
  | .clickDelete indices => some (s.deleteBatch indices)
  | .clickSave =>
      match s.app.edit_index with
      | some edit_index =>
          if s.app.new_content = "" then some s
          else if edit_index < s.app.notes.length then
            let tags := parseTags s.app.new_tags
            let s1 := { s with app := { s.app with
                notes := updateAt s.app.notes edit_index (fun n =>
                  let n1 := { n with title := s.app.new_title }
                  let n2 := n1.update s.app.new_content now
                  { n2 with tags := tags }) } }
            let s2 := s1.save_notes
            some { s2 with app := { s2.app with
              new_title := ""
              new_content := ""
              new_tags := ""
              edit_index := none } }
          else none
      | none => some s
  | .clickAdd =>
      match s.app.edit_index with
      | some _ => some s
      | none =>
          if s.app.new_title ≠ "" ∧ s.app.new_content ≠ "" then
            some (s.add_note now)
          else some s

/-- Run a sequence of frames, each with its instant. -/
def run (s : Sys) : List (Event × Nat) → Option Sys
  | [] => some s
  | (e, t) :: rest =>
      match step s e t with
      | some s1 => run s1 rest
      | none => none

/-- The state at process start (lines 167–174) when `notes.json` does not
exist: `load_notes` returns the empty collection, drafts are empty, no edit
session. -/
def Sys.init : Sys :=
  { app := { notes := [], new_title := "", new_content := "", new_tags := "",
             edit_index := none },
    file := none }

theorem updateAt_length {α : Type} (l : List α) (i : Nat) (f : α → α) :
    (updateAt l i f).length = l.length := by
  induction l generalizing i with
  | nil => rfl
  | cons a as_ ih =>
      cases i with
      | zero => rfl
      | succ j => simp [updateAt, ih]

theorem updateAt_getElem_self {α : Type} (l : List α) (i : Nat) (f : α → α) :
    (updateAt l i f)[i]? = l[i]?.map f := by
  induction l generalizing i with
  | nil => rfl
  | cons a as_ ih =>
      cases i with
      | zero => simp [updateAt]
      | succ j => simpa [updateAt] using ih j

theorem mem_updateAt {α : Type} {l : List α} {i : Nat} {f : α → α} {a : α}
    (h : a ∈ updateAt l i f) : a ∈ l ∨ ∃ b ∈ l, a = f b := by
  induction l generalizing i with
  | nil => simp [updateAt] at h
  | cons x xs ih =>
      cases i with
      | zero =>
          rcases List.mem_cons.mp h with h1 | h1
          · exact Or.inr ⟨x, List.mem_cons_self x xs, h1⟩
          · exact Or.inl (List.mem_cons_of_mem x h1)
      | succ j =>
          rcases List.mem_cons.mp h with h1 | h1
          · exact Or.inl (h1 ▸ List.mem_cons_self x xs)
          · rcases ih h1 with h2 | ⟨b, hb, hab⟩
            · exact Or.inl (List.mem_cons_of_mem x h2)
            · exact Or.inr ⟨b, List.mem_cons_of_mem x hb, hab⟩

/-- Concrete fixture note `A`. -/
def noteA : Note :=
  { title := "A", content := "a", created_at := 0, updated_at := 0, tags := [] }

/-- Concrete fixture note `B`. -/
def noteB : Note :=
  { title := "B", content := "b", created_at := 0, updated_at := 0, tags := [] }

/-- Concrete fixture note `C`. -/
def noteC : Note :=
  { title := "C", content := "c", created_at := 0, updated_at := 0, tags := [] }

/-- A system holding the three fixture notes, with storage in sync. -/
def sysABC : Sys :=
  { app := { notes := [noteA, noteB, noteC], new_title := "", new_content := "",
             new_tags := "", edit_index := none },
    file := some (encodeNotes [noteA, noteB, noteC]) }

/-- Every note satisfies the timestamp invariant and both timestamps are
bounded by the clock value `t`. -/
def invBelow (t : Nat) (s : Sys) : Prop :=
  ∀ n ∈ s.app.notes, n.created_at ≤ n.updated_at ∧ n.updated_at ≤ t

theorem invBelow_mono {t t' : Nat} {s : Sys} (h : invBelow t s)
    (htt : t ≤ t') : invBelow t' s := by
  intro n hn
  exact ⟨(h n hn).1, le_trans (h n hn).2 htt⟩

theorem invBelow_delete {t : Nat} {s : Sys} (i : Nat) (h : invBelow t s) :
    invBelow t (s.delete_note_by_index i) := by
  unfold Sys.delete_note_by_index
  split
  · intro n hn
    exact h n ((List.eraseIdx_sublist _ i).mem hn)
  · exact h

theorem invBelow_foldl_delete {t : Nat} (l : List Nat) :
    ∀ s : Sys, invBelow t s →
      invBelow t (l.foldl Sys.delete_note_by_index s) := by
  induction l with
  | nil => intro s h; exact h
  | cons i is_ ih => intro s h; exact ih _ (invBelow_delete i h)

theorem invBelow_deleteBatch {t : Nat} {s : Sys} (indices : List Nat)
    (h : invBelow t s) : invBelow t (s.deleteBatch indices) :=
  invBelow_foldl_delete indices.reverse s h

theorem step_invBelow {s s1 : Sys} {e : Event} {t now : Nat}
    (hinv : invBelow t s) (hmono : t ≤ now)
    (hstep : step s e now = some s1) : invBelow now s1 := by
  have hinv' : invBelow now s := invBelow_mono hinv hmono
  cases e with
  | setDrafts a b c =>
      simp only [step, Option.some.injEq] at hstep
      subst hstep
      exact hinv'
  | clickEdit i =>
      cases hx : s.app.notes[i]? with
      | none =>
          simp only [step, hx, Option.some.injEq] at hstep
          subst hstep
          exact hinv'
      | some n =>
          simp only [step, hx, Option.some.injEq] at hstep
          subst hstep
          exact hinv'
  | clickDelete indices =>
      simp only [step, Option.some.injEq] at hstep
      subst hstep
      exact invBelow_deleteBatch indices hinv'
  | clickSave =>
      simp only [step] at hstep
      split at hstep
      case h_2 =>
          simp only [Option.some.injEq] at hstep
          subst hstep
          exact hinv'
      case h_1 i heq =>
          split at hstep
          · simp only [Option.some.injEq] at hstep
            subst hstep
            exact hinv'
          · split at hstep
            · simp only [Option.some.injEq] at hstep
              subst hstep
              intro n hn
              rcases mem_updateAt hn with h1 | ⟨b, hb, hab⟩
              · exact hinv' n h1
              · subst hab
                refine ⟨?_, ?_⟩
                · simpa [Note.update] using
                    le_trans (hinv' b hb).1 (hinv' b hb).2
                · simp [Note.update]
            · cases hstep
  | clickAdd =>
      simp only [step] at hstep
      split at hstep
      case h_1 =>
          simp only [Option.some.injEq] at hstep
          subst hstep
          exact hinv'
      case h_2 =>
          split at hstep <;> simp only [Option.some.injEq] at hstep <;>
            subst hstep
          · intro n hn
            unfold Sys.add_note at hn
            rcases List.mem_append.mp hn with h1 | h1
            · exact hinv' n h1
            · rcases List.mem_singleton.mp h1 with rfl
              exact ⟨le_rfl, le_rfl⟩
          · exact hinv'

theorem run_inv (evs : List (Event × Nat)) :
    ∀ (s s1 : Sys) (t : Nat), invBelow t s →
      List.Chain' (fun a b => a ≤ b) (t :: evs.map Prod.snd) →
      run s evs = some s1 →
      ∀ n ∈ s1.app.notes, n.created_at ≤ n.updated_at := by
  induction evs with
  | nil =>
      intro s s1 t hinv _ hrun n hn
      simp only [run, Option.some.injEq] at hrun
      subst hrun
      exact (hinv n hn).1
  | cons et rest ih =>
      intro s s1 t hinv hchain hrun
      obtain ⟨e, t2⟩ := et
      simp only [run] at hrun
      rw [List.map_cons] at hchain
      have h12 : t ≤ t2 := (List.chain'_cons.mp hchain).1
      have hchain2 := (List.chain'_cons.mp hchain).2
      cases hstep : step s e t2 with
      | none => simp [hstep] at hrun
      | some s2 =>
          simp only [hstep] at hrun
          exact ih s2 s1 t2 (step_invBelow hinv h12 hstep) hchain2 hrun

/-- C2: decoding the serialized form of any collection of notes yields a
collection equal to the original field-for-field, including the timestamp
values and the order of the tags. -/
theorem round_trip (notes : List Note) :
    decodeNotes (encodeNotes notes) = some notes :=
  decodeNotes_encodeNotes notes

/-- C9: `Note::update` replaces only the content and sets `updated_at` to the
current instant; title, tags and `created_at` are untouched. -/
theorem apply_content_update_frame (n : Note) (new_content : String)
    (now : Nat) :
    (n.update new_content now).content = new_content ∧
    (n.update new_content now).updated_at = now ∧
    (n.update new_content now).title = n.title ∧
    (n.update new_content now).tags = n.tags ∧
    (n.update new_content now).created_at = n.created_at :=
  ⟨rfl, rfl, rfl, rfl, rfl⟩

/-- C5: tag parsing splits on commas, trims every token and discards the
empty ones, keeping order and duplicates; `" a, b ,, c "` gives
`["a", "b", "c"]`, an empty or all-whitespace input gives `[]`, and in
general the result is exactly the non-empty trimmed tokens. -/
theorem parseTags_spec :
    parseTags " a, b ,, c " = ["a", "b", "c"] ∧
    parseTags "" = [] ∧
    parseTags "   " = [] ∧
    parseTags "x, y, x" = ["x", "y", "x"] ∧
    ∀ s t, t ∈ parseTags s ↔
      (t ≠ "" ∧ ∃ tok ∈ splitComma s, trimStr tok = t) := by
  refine ⟨by decide, by decide, by decide, by decide, ?_⟩
  intro s t
  simp only [parseTags, List.mem_filter, List.mem_map, decide_not,
             Bool.not_eq_eq_eq_not, Bool.not_true, decide_eq_false_iff_not]
  tauto

/-- C4: for every state and every in-bounds index `i`,
`delete_note_by_index` removes exactly the note at position `i` — the
collection shrinks by one, notes before `i` keep their positions, and every
later note shifts down by one; concretely, deleting index 1 from `[A, B, C]`
yields `[A, C]`, deleting the batch `[0, 2]` in descending order (as the
code does) leaves `[B]`, while the same batch processed in ascending order
leaves the wrong collection `[B, C]`. -/
theorem delete_shifts_indices (s : Sys) (i : Nat)
    (h : i < s.app.notes.length) :
    ((s.delete_note_by_index i).app.notes.length = s.app.notes.length - 1 ∧
     (∀ j, j < i →
        (s.delete_note_by_index i).app.notes[j]? = s.app.notes[j]?) ∧
     (∀ j, i ≤ j →
        (s.delete_note_by_index i).app.notes[j]? = s.app.notes[j + 1]?)) ∧
    (sysABC.delete_note_by_index 1).app.notes = [noteA, noteC] ∧
    (sysABC.deleteBatch [0, 2]).app.notes = [noteB] ∧
    (sysABC.deleteBatchAscending [0, 2]).app.notes = [noteB, noteC] ∧
    (sysABC.deleteBatchAscending [0, 2]).app.notes ≠
      (sysABC.deleteBatch [0, 2]).app.notes := by
  refine ⟨?_, by decide, by decide, by decide, by decide⟩
  unfold Sys.delete_note_by_index
  rw [if_pos h]
  exact ⟨List.length_eraseIdx_of_lt h,
         fun j hj => List.getElem?_eraseIdx_of_lt _ _ _ hj,
         fun j hj => List.getElem?_eraseIdx_of_ge _ _ _ hj⟩

/-- Witness for C4 at the three-note fixture and index 1. -/
theorem delete_shifts_indices_witness :
    1 < sysABC.app.notes.length ∧
    (sysABC.delete_note_by_index 1).app.notes.length =
      sysABC.app.notes.length - 1 ∧
    (sysABC.delete_note_by_index 1).app.notes = [noteA, noteC] :=
  ⟨by decide,
   (delete_shifts_indices sysABC 1 (by decide)).1.1,
   (delete_shifts_indices sysABC 1 (by decide)).2.1⟩

/-- C6: `add_note` on a collection of size `N` appends: the size becomes
`N + 1`, the first `N` notes are unchanged, the new note sits at index `N`
with `created_at = updated_at`, and the three draft fields are cleared. -/
theorem add_note_appends (s : Sys) (now : Nat) :
    (s.add_note now).app.notes.length = s.app.notes.length + 1 ∧
    (s.add_note now).app.notes.take s.app.notes.length = s.app.notes ∧
    (s.add_note now).app.notes[s.app.notes.length]? =
      some (Note.new s.app.new_title s.app.new_content
        (parseTags s.app.new_tags) now) ∧
    (Note.new s.app.new_title s.app.new_content
        (parseTags s.app.new_tags) now).created_at =
      (Note.new s.app.new_title s.app.new_content
        (parseTags s.app.new_tags) now).updated_at ∧
    (s.add_note now).app.new_title = "" ∧
    (s.add_note now).app.new_content = "" ∧
    (s.add_note now).app.new_tags = "" := by
  refine ⟨by simp [Sys.add_note, Sys.save_notes], ?_, ?_, rfl, rfl, rfl, rfl⟩
  · show (s.app.notes ++ [_]).take s.app.notes.length = s.app.notes
    exact List.take_left s.app.notes _
  · show (s.app.notes ++ [_])[s.app.notes.length]? = _
    exact List.getElem?_concat_length s.app.notes _

/-- C7: an out-of-bounds index makes both `delete_note_by_index` and
`update_note_by_index` a complete no-op — the whole state, collection and
storage included, is unchanged, and (being total functions) no panic
occurs. -/
theorem out_of_bounds_noop (s : Sys) (i : Nat) (new_content : String)
    (now : Nat) (h : s.app.notes.length ≤ i) :
    s.delete_note_by_index i = s ∧
    s.update_note_by_index i new_content now = s := by
  constructor
  · unfold Sys.delete_note_by_index
    rw [if_neg (by omega)]
  · unfold Sys.update_note_by_index
    rw [if_neg (by omega)]

/-- Witness for C7 at the three-note fixture and index 99. -/
theorem out_of_bounds_noop_witness :
    sysABC.app.notes.length ≤ 99 ∧
    (sysABC.delete_note_by_index 99 = sysABC ∧
     sysABC.update_note_by_index 99 "x" 5 = sysABC) :=
  ⟨by decide, out_of_bounds_noop sysABC 99 "x" 5 (by decide)⟩

/-- C1: committing the save-changes path at an in-bounds index `i` (with an
active edit session and a non-empty draft content) replaces the note's title
with the draft title, its content with the draft content (setting
`updated_at` to the current instant), and its tags with the parse of the
draft tags text, while `created_at` is unchanged. -/
theorem update_note_replaces_fields (s : Sys) (i : Nat) (n : Note) (now : Nat)
    (hedit : s.app.edit_index = some i)
    (hc : s.app.new_content ≠ "")
    (hlen : i < s.app.notes.length)
    (hn : s.app.notes[i]? = some n) :
    ∃ s1, step s Event.clickSave now = some s1 ∧
      s1.app.notes[i]? = some
        { title := s.app.new_title, content := s.app.new_content,
          created_at := n.created_at, updated_at := now,
          tags := parseTags s.app.new_tags } := by
  simp only [step, hedit, if_neg hc, if_pos hlen]
  refine ⟨_, rfl, ?_⟩
  show (updateAt s.app.notes i _)[i]? = _
  rw [updateAt_getElem_self, hn]
  rfl

/-- A one-note system with an active edit session on index 0. -/
def sysEdit : Sys :=
  { app := { notes := [noteA], new_title := "T", new_content := "c1",
             new_tags := " x , y ", edit_index := some 0 },
    file := some (encodeNotes [noteA]) }

/-- Witness for C1 at the one-note edit fixture. -/
theorem update_note_replaces_fields_witness :
    sysEdit.app.edit_index = some 0 ∧
    sysEdit.app.new_content ≠ "" ∧
    0 < sysEdit.app.notes.length ∧
    sysEdit.app.notes[0]? = some noteA ∧
    ∃ s1, step sysEdit Event.clickSave 5 = some s1 ∧
      s1.app.notes[0]? = some
        { title := sysEdit.app.new_title, content := sysEdit.app.new_content,
          created_at := noteA.created_at, updated_at := 5,
          tags := parseTags sysEdit.app.new_tags } :=
  ⟨rfl, by decide, by decide, rfl,
   update_note_replaces_fields sysEdit 0 noteA 5 rfl (by decide) (by decide)
     rfl⟩

/-- C3: each of `add_note`, in-bounds `delete_note_by_index` and in-bounds
`update_note_by_index` leaves the storage holding the serialization of the
entire current collection, and reloading that storage yields exactly the
in-memory collection. -/
theorem persistence_on_mutation (s : Sys) (i : Nat) (new_content : String)
    (now : Nat) (h : i < s.app.notes.length) :
    (s.add_note now).file = some (encodeNotes (s.add_note now).app.notes) ∧
    load_notes (s.add_note now).file = some (s.add_note now).app.notes ∧
    (s.delete_note_by_index i).file =
      some (encodeNotes (s.delete_note_by_index i).app.notes) ∧
    load_notes (s.delete_note_by_index i).file =
      some (s.delete_note_by_index i).app.notes ∧
    (s.update_note_by_index i new_content now).file =
      some (encodeNotes (s.update_note_by_index i new_content now).app.notes) ∧
    load_notes (s.update_note_by_index i new_content now).file =
      some (s.update_note_by_index i new_content now).app.notes := by
  unfold Sys.add_note Sys.delete_note_by_index Sys.update_note_by_index
    Sys.save_notes
  rw [if_pos h, if_pos h]
  exact ⟨rfl, decodeNotes_encodeNotes _, rfl, decodeNotes_encodeNotes _,
         rfl, decodeNotes_encodeNotes _⟩

/-- Witness for C3 at the three-note fixture and index 0. -/
theorem persistence_on_mutation_witness :
    0 < sysABC.app.notes.length ∧
    load_notes (sysABC.add_note 7).file = some (sysABC.add_note 7).app.notes :=
  ⟨by decide, (persistence_on_mutation sysABC 0 "x" 7 (by decide)).2.1⟩

/-- C8: starting from the fresh state, any sequence of frames whose instants
are non-decreasing leaves every note with `updated_at >= created_at`. -/
theorem updated_at_ge_created_at (evs : List (Event × Nat)) (s1 : Sys)
    (hchain : List.Chain' (fun a b => a ≤ b) (0 :: evs.map Prod.snd))
    (hrun : run Sys.init evs = some s1) :
    ∀ n ∈ s1.app.notes, n.created_at ≤ n.updated_at :=
  run_inv evs Sys.init s1 0 (fun n hn => by simp [Sys.init] at hn) hchain hrun

/-- A two-frame interaction: type a draft, add it. -/
def witEvents : List (Event × Nat) :=
  [(Event.setDrafts "T" "C" "", 1), (Event.clickAdd, 2)]

/-- The state after running `witEvents` from the fresh state. -/
def witFinal : Sys :=
  { app := { notes := [Note.new "T" "C" (parseTags "") 2], new_title := "",
             new_content := "", new_tags := "", edit_index := none },
    file := some (encodeNotes [Note.new "T" "C" (parseTags "") 2]) }

/-- Witness for C8 at the two-frame interaction. -/
theorem updated_at_ge_created_at_witness :
    List.Chain' (fun a b => a ≤ b) (0 :: witEvents.map Prod.snd) ∧
    (Note.new "T" "C" (parseTags "") 2).created_at ≤
      (Note.new "T" "C" (parseTags "") 2).updated_at :=
  ⟨by simp [witEvents, List.chain'_cons],
   updated_at_ge_created_at witEvents witFinal
     (by simp [witEvents, List.chain'_cons]) rfl
     (Note.new "T" "C" (parseTags "") 2) (by simp [witFinal])⟩

/-- Frames that add three notes, open an edit session on index 2, then
delete index 0: the edit session now points past the end of the
collection. -/
def staleEvents : List (Event × Nat) :=
  [(Event.setDrafts "A" "a1" "", 1), (Event.clickAdd, 2),
   (Event.setDrafts "B" "b2" "", 3), (Event.clickAdd, 4),
   (Event.setDrafts "C" "c3" "", 5), (Event.clickAdd, 6),
   (Event.clickEdit 2, 7), (Event.clickDelete [0], 8)]

/-- C10: a state with an active edit session at index 2, non-empty draft
content and only 2 notes is reachable, and clicking save-changes there hits
the unchecked `self.notes[edit_index]` and panics — it is not a silent
no-op. -/
theorem stale_edit_index_panics :
    ∃ bad, run Sys.init staleEvents = some bad ∧
      bad.app.edit_index = some 2 ∧
      bad.app.new_content ≠ "" ∧
      bad.app.notes.length ≤ 2 ∧
      step bad Event.clickSave 9 = none := by
  refine ⟨_, rfl, rfl, by decide, by decide, rfl⟩
